import Mathlib

/-!
Verification of the metal.js Component core (lifecycle, surface registry,
render-attribute index, content-hash based re-render suppression) against
its natural-language specification.

The JavaScript sources are shallowly embedded:
* `src/string/string.js` (hashCode, collapseBreakingSpaces) as pure
  functions on `List Char` / `Nat`;
* `src/component/Component.js` as explicit state passing over
  `ComponentState`; JavaScript exceptions (`throw`, TypeError on null
  dereference) are modelled with `Except JsError`.
Strings are modelled as `List Char` (one entry per UTF-16 code unit of the
JS string); attribute values, which the component core treats opaquely, are
modelled as `Nat` tokens.
-/

namespace Metal

/-- The breaking-space characters of the regex character class
    `[\t\r\n ]` used by `string.collapseBreakingSpaces`. -/
def isBreakingSpace (c : Char) : Bool :=
  c = '\t' || c = '\r' || c = '\n' || c = ' '

/-- First replace of `string.collapseBreakingSpaces`:
    `str.replace(/[\t\r\n ]+/g, ' ')` — every maximal run of breaking
    spaces becomes a single space (emitted at the last character of the
    run; one-character lookahead keeps the recursion structural). -/
def collapseRuns : List Char → List Char
  | [] => []
  | [c] => if isBreakingSpace c then [' '] else [c]
  | c :: d :: cs =>
    if isBreakingSpace c then
      if isBreakingSpace d then collapseRuns (d :: cs)
      else ' ' :: collapseRuns (d :: cs)
    else c :: collapseRuns (d :: cs)

/-- The right half of the trim: drop the trailing run of breaking
    spaces. -/
def trimRight (l : List Char) : List Char :=
  (l.reverse.dropWhile isBreakingSpace).reverse

/-- Second replace of `string.collapseBreakingSpaces`:
    `str.replace(/^[\t\r\n ]+|[\t\r\n ]+$/g, '')` — drop the leading and
    trailing runs of breaking spaces. -/
def trimBreaking (l : List Char) : List Char :=
  trimRight (l.dropWhile isBreakingSpace)

/-- `string.collapseBreakingSpaces` from `src/string/string.js`. -/
def collapseBreakingSpaces (l : List Char) : List Char :=
  trimBreaking (collapseRuns l)

/-- One step of `breakingTokens`: prepend the non-breaking character `c`
    to the token decomposition `ts` of its tail `cs` — extending the first
    token when `cs` continues the same run, starting a new token
    otherwise. -/
def tokensCons (c : Char) (cs : List Char) (ts : List (List Char)) :
    List (List Char) :=
  match cs, ts with
  | d :: _, t :: ts' =>
    if isBreakingSpace d then [c] :: t :: ts' else (c :: t) :: ts'
  | _, ts' => [c] :: ts'

/-- The maximal runs of non-breaking characters of a string, in order
    (a new token starts at a non-breaking character whose predecessor is
    absent or breaking).  Used by the spec-side normal form of
    `collapseBreakingSpaces`. -/
def breakingTokens : List Char → List (List Char)
  | [] => []
  | c :: cs =>
    if isBreakingSpace c then breakingTokens cs
    else tokensCons c cs (breakingTokens cs)

/-- Joins tokens with single spaces. -/
def joinTokens : List (List Char) → List Char
  | [] => []
  | [t] => t
  | t :: ts => t ++ ' ' :: joinTokens ts

/-- The spec's description of the whitespace normalizer: every maximal
    whitespace run collapsed to a single interior space, no leading or
    trailing whitespace; equivalently, the non-whitespace tokens joined by
    single spaces. -/
def normalizedBreakingSpaces (l : List Char) : List Char :=
  joinTokens (breakingTokens l)

/-- `string.hashCode` from `src/string/string.js`:
    `hash = 31 * hash + charCode; hash %= 0x100000000` folded over the
    string's code units.  (All intermediate JS numbers stay below 2^37,
    so the float arithmetic is exact and `Nat` arithmetic is faithful.) -/
def hashCode (s : List Char) : Nat :=
  s.foldl (fun hash c => (31 * hash + c.toNat) % 4294967296) 0

/-- A JavaScript runtime failure: an explicit `throw new Error(msg)` or a
    TypeError from dereferencing null/undefined. -/
inductive JsError where
  | thrown (msg : String)
  | typeError
deriving DecidableEq, Repr

/-- `Component.Error.ALREADY_RENDERED`. -/
def ALREADY_RENDERED : String := "Component already rendered"

/-- A surface's `cacheState` field.  JS values: `undefined` (a surface
    registered with a config object that has no `cacheState` key),
    `Component.Cache.NOT_INITIALIZED` (-2), `Component.Cache.NOT_CACHEABLE`
    (-1), or a non-negative 32-bit string hashcode.  These four classes of
    JS values are pairwise distinct under `===`, as the constructors are. -/
inductive CacheState where
  | undef
  | notInitialized
  | notCacheable
  | hash (h : Nat)
deriving DecidableEq, Repr

/-- Content passed to `renderSurfaceContent`: a JS string, or any
    non-string object (opaquely tokenized); `Option` at the call sites
    models `undefined`/`null`, which `core.isDefAndNotNull` filters out. -/
inductive Content where
  | str (s : List Char)
  | obj (data : Nat)
deriving DecidableEq, Repr

/-- A DOM element, as far as the component core observes it: its id, its
    child content (set by `dom.removeChildren` / `dom.append`), and whether
    it currently has a parent node. -/
structure Elem where
  elemId : String
  childNodes : List Content
  hasParent : Bool
deriving DecidableEq, Repr

/-- One entry of `this.surfaces_`: the surface configuration object.
    `addSurface` stores the caller's config (whose `cacheState` is
    `undefined` unless supplied) or `{cacheState: NOT_INITIALIZED}`. -/
structure Surface where
  cacheState : CacheState
  element : Option Elem
  renderAttrs : List String
deriving DecidableEq, Repr

/-- The default surface config `{cacheState: Component.Cache.NOT_INITIALIZED}`
    created by `addSurface` when no config is given. -/
def defaultSurfaceConfig : Surface :=
  { cacheState := .notInitialized, element := none, renderAttrs := [] }

/-- One batched attribute change (`{newVal, prevVal}`); the component core
    treats the values opaquely, so they are modelled as `Nat` tokens. -/
structure AttrChange where
  newVal : Nat
  prevVal : Nat
deriving DecidableEq, Repr

/-- JS-object lookup on an association list (first entry wins; the lists
    built here keep keys unique, matching JS object semantics). -/
def findVal {α : Type} : List (String × α) → String → Option α
  | [], _ => none
  | p :: rest, k => if p.1 = k then some p.2 else findVal rest k

/-- JS-object assignment `m[k] = v`: overwrite the entry if the key is
    present, otherwise append it. -/
def setKey {α : Type} : List (String × α) → String → α → List (String × α)
  | [], k, v => [(k, v)]
  | p :: rest, k, v => if p.1 = k then (k, v) :: rest else p :: setKey rest k v

/-- JS-object `delete m[k]`. -/
def deleteKey {α : Type} (m : List (String × α)) (k : String) : List (String × α) :=
  m.filter (fun p => decide (¬ p.1 = k))

/-- The mutable state of one `Component` instance, as the claims observe
    it.  `surfaces` is `this.surfaces_`, `surfacesRenderAttrs` is
    `this.surfacesRenderAttrs_` (attribute name → set of surface ids,
    the inner JS set-of-true-values modelled as a duplicate-free list),
    `attrsSyncMerged` the key set of the constructor's
    `ATTRS_SYNC_MERGED`, `lookupDom` the ambient document (lookups by
    element id, collapsing `document.getElementById` and the scoped
    `querySelector` fallback of `getSurfaceElement`). -/
structure ComponentState where
  compId : String
  inDocument : Bool
  element : Elem
  surfaces : List (String × Surface)
  surfacesRenderAttrs : List (String × List String)
  attrsSyncMerged : List String
  lookupDom : List (String × Elem)
deriving DecidableEq, Repr

/-- The overridable hooks of a concrete widget subclass, which the core
    dispatches to dynamically: `getSurfaceContent(surfaceId)` (returns
    `undefined` = `none` by default), and whether a `sync<Attr>` method
    exists for a given attribute name (the `core.isFunction(fn)` guard of
    `fireAttrChange_`). -/
structure Hooks where
  getSurfaceContent : String → Option Content
  syncDefined : String → Bool

/-- `Component.prototype.getSurface`: `this.surfaces_[surfaceId] || null`
    (surface objects are truthy, so `|| null` only maps `undefined` to
    `null`). -/
def getSurface (st : ComponentState) (surfaceId : String) : Option Surface :=
  findVal st.surfaces surfaceId

/-- `Component.prototype.makeSurfaceId_`: `this.id + '-' + surfaceId`. -/
def makeSurfaceId (st : ComponentState) (surfaceId : String) : String :=
  st.compId ++ "-" ++ surfaceId

/-- `Component.prototype.createSurfaceElement_`: a fresh element carrying
    the namespaced id. -/
def createSurfaceElement (surfaceElementId : String) : Elem :=
  { elemId := surfaceElementId, childNodes := [], hasParent := false }

/-- The element-resolution chain of `getSurfaceElement`: look the
    namespaced id up in the document (`document.getElementById`, with the
    scoped `querySelector` fallback collapsed into the same ambient
    lookup) before creating a fresh element. -/
def resolveSurfaceElement (st : ComponentState) (surfaceElementId : String) : Elem :=
  match findVal st.lookupDom surfaceElementId with
  | some found => found
  | none => createSurfaceElement surfaceElementId

/-- `Component.prototype.getSurfaceElement`: null for an unregistered id;
    otherwise resolve the element at most once and cache it on the
    surface. -/
def getSurfaceElement (st : ComponentState) (surfaceId : String) :
    Option Elem × ComponentState :=
  match getSurface st surfaceId with
  | none => (none, st)
  | some surface =>
    match surface.element with
    | some el => (some el, st)
    | none =>
      (some (resolveSurfaceElement st (makeSurfaceId st surfaceId)),
        { st with surfaces := (setKey st.surfaces surfaceId
            { surface with
                element := some (resolveSurfaceElement st (makeSurfaceId st surfaceId)) }) })

/-- `Component.prototype.computeSurfaceCacheState_`: the string hashcode
    for strings, `NOT_CACHEABLE` for anything else. -/
def computeSurfaceCacheState (value : Content) : CacheState :=
  match value with
  | .str s => .hash (hashCode s)
  | .obj _ => .notCacheable

/-- The re-render branch of `renderSurfaceContent`: resolve the surface
    element, `dom.removeChildren(el)`, `dom.append(el, content)`, then the
    trailing `surface.cacheState = cacheState` assignment.  A null element
    (unregistered surface) makes `dom.removeChildren` throw. -/
def surfaceRerender (st : ComponentState) (surfaceId : String)
    (cacheState : CacheState) (content : Content) :
    Except JsError (ComponentState × Bool) :=
  match getSurfaceElement st surfaceId with
  | (none, _) => .error .typeError
  | (some el, st1) =>
    match getSurface st1 surfaceId with
    | none => .error .typeError
    | some surface =>
      .ok ({ st1 with surfaces := (setKey st1.surfaces surfaceId
          { surface with element := some { el with childNodes := [content] },
                         cacheState := cacheState }) }, true)

/-- `Component.prototype.renderSurfaceContent`.  The returned `Bool` is
    whether the DOM was mutated (the clear-children/append branch ran).
    Reading `cacheState` of the null surface, or `dom.removeChildren` on
    the null element, throws a TypeError. -/
def renderSurfaceContent (st : ComponentState) (surfaceId : String)
    (content : Option Content) : Except JsError (ComponentState × Bool) :=
  match content with
  | none => .ok (st, false)
  | some c =>
    if computeSurfaceCacheState c = .notInitialized ∨
        computeSurfaceCacheState c = .notCacheable then
      surfaceRerender st surfaceId (computeSurfaceCacheState c) c
    else
      match getSurface st surfaceId with
      | none => .error .typeError
      | some surface =>
        if computeSurfaceCacheState c ≠ surface.cacheState then
          surfaceRerender st surfaceId (computeSurfaceCacheState c) c
        else
          .ok ({ st with surfaces := (setKey st.surfaces surfaceId
              { surface with cacheState := computeSurfaceCacheState c }) }, false)

/-- `Component.prototype.renderSurfacesContent_` over a given id set:
    renders `getSurfaceContent_(surfaceId)` into each surface. -/
def renderSurfacesContent (hooks : Hooks) (st : ComponentState)
    (surfaceIds : List String) : Except JsError ComponentState :=
  match surfaceIds with
  | [] => .ok st
  | surfaceId :: rest =>
    match renderSurfaceContent st surfaceId (hooks.getSurfaceContent surfaceId) with
    | .error e => .error e
    | .ok (st1, _) => renderSurfacesContent hooks st1 rest

/-- Insertion into `this.surfacesRenderAttrs_`:
    `map[attr] = map[attr] || {}; map[attr][surfaceId] = true`. -/
def indexAdd (idx : List (String × List String)) (attr surfaceId : String) :
    List (String × List String) :=
  let cur := (findVal idx attr).getD []
  setKey idx attr (if surfaceId ∈ cur then cur else cur ++ [surfaceId])

/-- `Component.prototype.cacheSurfaceRenderAttrs_`: index each of the
    surface's `renderAttrs` to its id.  (Called only right after the
    surface is stored, so the lookup always succeeds; a for-in loop over
    an absent `renderAttrs` list runs zero iterations.) -/
def cacheSurfaceRenderAttrs (st : ComponentState) (surfaceId : String) :
    ComponentState :=
  match getSurface st surfaceId with
  | none => st
  | some surface =>
    { st with surfacesRenderAttrs :=
        (surface.renderAttrs.foldl (fun idx attr => indexAdd idx attr surfaceId)
          st.surfacesRenderAttrs) }

/-- `Component.prototype.addSurface`: store the config (or the default
    `{cacheState: NOT_INITIALIZED}`) and index its render attributes. -/
def addSurface (st : ComponentState) (surfaceId : String)
    (config : Option Surface) : ComponentState :=
  cacheSurfaceRenderAttrs
    ({ st with surfaces := (setKey st.surfaces surfaceId
        (config.getD defaultSurfaceConfig)) })
    surfaceId

/-- `Component.prototype.addSurfaces`. -/
def addSurfaces (st : ComponentState) (configs : List (String × Surface)) :
    ComponentState :=
  configs.foldl (fun s p => addSurface s p.1 (some p.2)) st

/-- `Component.prototype.addSurfacesFromStaticHint_`: reset both maps and
    add every surface of the merged static `SURFACES` hint. -/
def initSurfaces (st : ComponentState) (configs : List (String × Surface)) :
    ComponentState :=
  addSurfaces { st with surfaces := [], surfacesRenderAttrs := [] } configs

/-- Duplicate-free union used to combine render-attribute index entries. -/
def unionIds (a b : List String) : List String :=
  a ++ b.filter (fun x => decide (¬ x ∈ a))

/-- `Component.prototype.getModifiedSurfacesFromChanges_`.  Modelled from
    the spec: the body applies `object.mixin` (from `src/object/object.js`,
    which is not among the sources) to the index entries of every changed
    attribute; per the spec this computes the union of `index[attr]` over
    the changed attribute names, attributes with no indexed surfaces
    contributing nothing. -/
def getModifiedSurfacesFromChanges (st : ComponentState)
    (changes : List (String × AttrChange)) : List String :=
  changes.foldl
    (fun acc p => unionIds acc ((findVal st.surfacesRenderAttrs p.1).getD []))
    []

/-- `Component.prototype.fireAttrsChanges_` (with `fireAttrChange_`):
    for every changed attribute in the constructor's `ATTRS_SYNC_MERGED`
    key set whose `sync<Attr>` method exists, invoke it with
    `(newVal, prevVal)`.  Returns the list of performed calls. -/
def fireAttrsChanges (hooks : Hooks) (st : ComponentState)
    (changes : List (String × AttrChange)) : List (String × Nat × Nat) :=
  (changes.filter
      (fun p => st.attrsSyncMerged.contains p.1 && hooks.syncDefined p.1)).map
    (fun p => (p.1, p.2.newVal, p.2.prevVal))

/-- `Component.prototype.handleAttributesChanges_`: when attached,
    re-render the surfaces modified by the batch, then fire the attribute
    synchronization callbacks. -/
def handleAttributesChanges (hooks : Hooks) (st : ComponentState)
    (changes : List (String × AttrChange)) :
    Except JsError (ComponentState × List (String × Nat × Nat)) :=
  if st.inDocument then
    match renderSurfacesContent hooks st (getModifiedSurfacesFromChanges st changes) with
    | .error e => .error e
    | .ok st1 => .ok (st1, fireAttrsChanges hooks st1 changes)
  else
    .ok (st, fireAttrsChanges hooks st changes)

/-- `Component.prototype.clearSurfacesCache_`. -/
def clearSurfacesCache (st : ComponentState) : ComponentState :=
  { st with surfaces := (st.surfaces.map
      (fun p => (p.1, { p.2 with cacheState := CacheState.notInitialized }))) }

/-- `Component.prototype.renderElement_` (default position: append the
    root element to the document body when it has no parent yet). -/
def renderElement (st : ComponentState) : ComponentState :=
  let el := { st.element with elemId := st.compId }
  if el.hasParent then { st with element := el }
  else { st with element := { el with hasParent := true } }

/-- `Component.prototype.attach` (the `attached` hook is a no-op by
    default). -/
def attach (st : ComponentState) : ComponentState :=
  { renderElement st with inDocument := true }

/-- `Component.prototype.detach`:
    `this.element.parentNode.removeChild(this.element)` — a TypeError when
    the root element has no parent node — then mark not-in-document (the
    `detached` hook is a no-op by default). -/
def detach (st : ComponentState) : Except JsError ComponentState :=
  if st.element.hasParent then
    .ok { st with element := { st.element with hasParent := false },
                  inDocument := false }
  else
    .error .typeError

/-- `Component.prototype.removeSurface`: resolve the surface element,
    detach it from its parent if attached, then delete the registry
    entry.  The render-attribute index is not touched. -/
def removeSurface (st : ComponentState) (surfaceId : String) : ComponentState :=
  let (_, st1) := getSurfaceElement st surfaceId
  { st1 with surfaces := deleteKey st1.surfaces surfaceId }

/-- The serialized `innerHTML` the component core reads back from a
    surface element (string children serialize to themselves; non-string
    content is opaque to this model). -/
def innerHTML (el : Elem) : List Char :=
  el.childNodes.foldr
    (fun c acc => (match c with | .str s => s | .obj _ => []) ++ acc) []

/-- Modelled from the spec: `html.compress` (from `src/html/html.js`,
    which is not among the sources) normalizes the serialized content by
    collapsing consecutive whitespace runs into single spaces and trimming
    leading/trailing whitespace before hashing, i.e. the breaking-space
    normalizer of `src/string/string.js`. -/
def htmlCompress (s : List Char) : List Char :=
  collapseBreakingSpaces s

/-- `Component.prototype.computeSurfacesCacheStateFromDom_`: seed every
    surface's cache from its element's compressed serialized content. -/
def computeSurfacesCacheStateFromDom (st : ComponentState) : ComponentState :=
  (st.surfaces.map (fun p => p.1)).foldl
    (fun s surfaceId =>
      match getSurfaceElement s surfaceId with
      | (none, s1) => s1
      | (some el, s1) =>
        match getSurface s1 surfaceId with
        | none => s1
        | some surface =>
          { s1 with surfaces := (setKey s1.surfaces surfaceId
              { surface with cacheState :=
                  computeSurfaceCacheState (.str (htmlCompress (innerHTML el))) }) })
    st

/-- `Component.prototype.render` (the `renderInternal` hook is a no-op by
    default; the attribute-synchronization pass fires no modelled calls
    here since it reads current attribute values, which the surface layer
    does not observe). -/
def render (hooks : Hooks) (st : ComponentState) : Except JsError ComponentState :=
  if st.inDocument then
    .error (.thrown ALREADY_RENDERED)
  else
    let st1 := clearSurfacesCache st
    match renderSurfacesContent hooks st1 (st1.surfaces.map (fun p => p.1)) with
    | .error e => .error e
    | .ok st2 => .ok (attach st2)

/-- `Component.prototype.decorate` (the `decorateInternal` hook is a no-op
    by default). -/
def decorate (hooks : Hooks) (st : ComponentState) : Except JsError ComponentState :=
  if st.inDocument then
    .error (.thrown ALREADY_RENDERED)
  else
    let st1 := computeSurfacesCacheStateFromDom st
    match renderSurfacesContent hooks st1 (st1.surfaces.map (fun p => p.1)) with
    | .error e => .error e
    | .ok st2 => .ok (attach st2)

/-- The root element of the example components below. -/
def exElem : Elem := { elemId := "root", childNodes := [], hasParent := false }

/-- Default hooks: `getSurfaceContent` returns `undefined`, no
    `sync<Attr>` methods beyond none at all. -/
def exHooks : Hooks := { getSurfaceContent := fun _ => none, syncDefined := fun _ => false }

/-- An example component with one freshly registered surface `"s"`. -/
def exComp : ComponentState :=
  { compId := "c", inDocument := false, element := exElem,
    surfaces := [("s", defaultSurfaceConfig)],
    surfacesRenderAttrs := [("foo", ["s"])],
    attrsSyncMerged := ["foo"], lookupDom := [] }

/-- An example component currently attached to the document. -/
def exAttached : ComponentState :=
  { exComp with inDocument := true,
                element := { elemId := "c", childNodes := [], hasParent := true } }

/-- The surface static hint of the spec's example:
    `{a: {renderAttrs: ['foo']}, b: {renderAttrs: ['bar']}}` (a plain
    config object has no `cacheState` key, hence `undefined`). -/
def exC3cfgs : List (String × Surface) :=
  [("a", { cacheState := .undef, element := none, renderAttrs := ["foo"] }),
   ("b", { cacheState := .undef, element := none, renderAttrs := ["bar"] })]

/-- An attribute batch changing only `foo`. -/
def exC3changes : List (String × AttrChange) :=
  [("foo", { newVal := 1, prevVal := 2 })]

end Metal

namespace Metal

theorem findVal_setKey_self {α : Type} (m : List (String × α)) (k : String) (v : α) :
    findVal (setKey m k v) k = some v := by
  induction m with
  | nil => simp [setKey, findVal]
  | cons p rest ih =>
    by_cases h : p.1 = k
    · simp [setKey, findVal, h]
    · simp [setKey, findVal, h, ih]

theorem findVal_setKey_ne {α : Type} (m : List (String × α)) (k k' : String) (v : α)
    (h : k' ≠ k) : findVal (setKey m k v) k' = findVal m k' := by
  induction m with
  | nil =>
    simp only [setKey, findVal]
    rw [if_neg (fun hh : k = k' => h hh.symm)]
  | cons p rest ih =>
    by_cases hp : p.1 = k
    · simp only [setKey, if_pos hp, findVal]
      rw [if_neg (fun hh : k = k' => h hh.symm),
        if_neg (fun hh : p.1 = k' => h (hp.symm.trans hh).symm)]
    · simp only [setKey, if_neg hp, findVal]
      by_cases hq : p.1 = k'
      · rw [if_pos hq, if_pos hq]
      · rw [if_neg hq, if_neg hq, ih]

theorem setKey_findVal_eq {α : Type} (m : List (String × α)) (k : String) (v : α)
    (h : findVal m k = some v) : setKey m k v = m := by
  induction m with
  | nil => simp [findVal] at h
  | cons p rest ih =>
    by_cases hp : p.1 = k
    · simp only [findVal, if_pos hp] at h
      have hv : v = p.2 := (Option.some_inj.mp h).symm
      simp only [setKey, if_pos hp, hv]
      rw [show (k, p.2) = p from by cases p; simp_all]
    · simp only [findVal, if_neg hp] at h
      simp [setKey, hp, ih h]

theorem findVal_deleteKey_self {α : Type} (m : List (String × α)) (k : String) :
    findVal (deleteKey m k) k = none := by
  induction m with
  | nil => simp [deleteKey, findVal]
  | cons p rest ih =>
    by_cases hp : p.1 = k
    · simpa [deleteKey, List.filter, hp] using ih
    · simpa [deleteKey, List.filter, hp, findVal] using ih

/-- `getSurfaceElement` never touches the render-attribute index, the
    in-document flag, the sync set or the root element; it can only cache
    the resolved element on the requested surface. -/
theorem getSurfaceElement_frame (st : ComponentState) (surfaceId : String) :
    ((getSurfaceElement st surfaceId).2.surfacesRenderAttrs = st.surfacesRenderAttrs) ∧
    ((getSurfaceElement st surfaceId).2.inDocument = st.inDocument) ∧
    ((getSurfaceElement st surfaceId).2.attrsSyncMerged = st.attrsSyncMerged) ∧
    ((getSurfaceElement st surfaceId).2.element = st.element) := by
  unfold getSurfaceElement
  split
  · exact ⟨rfl, rfl, rfl, rfl⟩
  · split
    · exact ⟨rfl, rfl, rfl, rfl⟩
    · exact ⟨rfl, rfl, rfl, rfl⟩

/-- C8 helper: `removeSurface` leaves the index untouched. -/
theorem removeSurface_index (st : ComponentState) (surfaceId : String) :
    (removeSurface st surfaceId).surfacesRenderAttrs = st.surfacesRenderAttrs := by
  unfold removeSurface
  exact (getSurfaceElement_frame st surfaceId).1

/-- C8: `removeSurface(id)` deletes the registry entry but leaves the
    render-attribute index exactly as it was: the index map is unchanged,
    so in particular every attribute-to-surface entry, including those
    naming the removed id, survives the call. -/
theorem spec_C8 (st : ComponentState) (surfaceId : String) :
    (removeSurface st surfaceId).surfacesRenderAttrs = st.surfacesRenderAttrs ∧
    getSurface (removeSurface st surfaceId) surfaceId = none := by
  refine ⟨removeSurface_index st surfaceId, ?_⟩
  unfold removeSurface getSurface
  exact findVal_deleteKey_self _ surfaceId

/-- C9: `renderSurfaceContent(surfaceId, content)` with `content`
    undefined or null is a complete no-op: the state (in particular the
    stored cacheState) is returned unchanged and no DOM mutation is
    reported. -/
theorem spec_C9 (st : ComponentState) (surfaceId : String) :
    renderSurfaceContent st surfaceId none = .ok (st, false) := rfl

/-- C7: after `removeSurface(id)`, `getSurfaceElement(id)` returns null;
    and `getSurfaceElement` of an id that was never registered returns
    null rather than failing. -/
theorem spec_C7 (st : ComponentState) (surfaceId : String) :
    (getSurfaceElement (removeSurface st surfaceId) surfaceId).1 = none ∧
    (getSurface st surfaceId = none → (getSurfaceElement st surfaceId).1 = none) := by
  constructor
  · have h : getSurface (removeSurface st surfaceId) surfaceId = none :=
      (spec_C8 st surfaceId).2
    unfold getSurfaceElement
    rw [h]
  · intro h
    unfold getSurfaceElement
    rw [h]

theorem spec_C7_witness :
    (getSurfaceElement (removeSurface exComp "s") "s").1 = none ∧
    (getSurfaceElement exComp "never").1 = none :=
  ⟨(spec_C7 exComp "s").1, (spec_C7 exComp "never").2 rfl⟩

/-- C4: calling `render()` or `decorate()` on a component whose
    `inDocument` flag is true raises the "Component already rendered"
    error; the guard is the first statement of both methods, so the error
    is raised before any mutation and the caller's state is untouched. -/
theorem spec_C4 (hooks : Hooks) (st : ComponentState) (h : st.inDocument = true) :
    render hooks st = .error (.thrown ALREADY_RENDERED) ∧
    decorate hooks st = .error (.thrown ALREADY_RENDERED) := by
  unfold render decorate
  rw [h]
  exact ⟨rfl, rfl⟩

theorem spec_C4_witness :
    render exHooks exAttached = .error (.thrown ALREADY_RENDERED) ∧
    decorate exHooks exAttached = .error (.thrown ALREADY_RENDERED) :=
  spec_C4 exHooks exAttached rfl

/-- C5: the happy path of `detach()` does remove the root element from its
    parent, set `inDocument` to false and return normally; but a second
    consecutive `detach()` — the root element now has no parent node —
    throws a TypeError from `this.element.parentNode.removeChild(...)`
    instead of completing without failure as the spec requires. -/
theorem spec_C5 :
    (detach exAttached).map (fun s => (s.inDocument, s.element.hasParent)) =
      .ok (false, false) ∧
    (detach exAttached).bind detach = .error .typeError := by
  constructor
  · rfl
  · rfl

/-- For a registered surface, `getSurfaceElement` returns an element and a
    state in which that element is cached on the surface; nothing else of
    the surface or the component changes. -/
theorem getSurfaceElement_registered (st : ComponentState) (surfaceId : String)
    (surf : Surface) (h : getSurface st surfaceId = some surf) :
    ∃ el st1, getSurfaceElement st surfaceId = (some el, st1) ∧
      getSurface st1 surfaceId = some { surf with element := some el } ∧
      st1.surfacesRenderAttrs = st.surfacesRenderAttrs ∧
      st1.inDocument = st.inDocument ∧
      st1.attrsSyncMerged = st.attrsSyncMerged ∧
      (∀ id', id' ≠ surfaceId → getSurface st1 id' = getSurface st id') := by
  obtain ⟨cs, e, ra⟩ := surf
  cases e with
  | some el =>
    refine ⟨el, st, ?_, ?_, rfl, rfl, rfl, fun _ _ => rfl⟩
    · unfold getSurfaceElement
      rw [h]
    · rw [h]
  | none =>
    refine ⟨resolveSurfaceElement st (makeSurfaceId st surfaceId),
      { st with surfaces := (setKey st.surfaces surfaceId
          { cacheState := cs,
            element := some (resolveSurfaceElement st (makeSurfaceId st surfaceId)),
            renderAttrs := ra }) },
      ?_, ?_, rfl, rfl, rfl, ?_⟩
    · unfold getSurfaceElement
      rw [h]
    · exact findVal_setKey_self _ _ _
    · intro id' hne
      exact findVal_setKey_ne _ _ _ _ hne

/-- For a registered surface, the re-render branch succeeds, reports a DOM
    mutation, stores the given cacheState, keeps the surface's
    `renderAttrs`, and leaves every other surface and all other component
    fields unchanged. -/
theorem surfaceRerender_registered (st : ComponentState) (surfaceId : String)
    (surf : Surface) (cs : CacheState) (c : Content)
    (h : getSurface st surfaceId = some surf) :
    ∃ st' surf', surfaceRerender st surfaceId cs c = .ok (st', true) ∧
      getSurface st' surfaceId = some surf' ∧
      surf'.cacheState = cs ∧
      surf'.renderAttrs = surf.renderAttrs ∧
      st'.surfacesRenderAttrs = st.surfacesRenderAttrs ∧
      st'.inDocument = st.inDocument ∧
      st'.attrsSyncMerged = st.attrsSyncMerged ∧
      (∀ id', id' ≠ surfaceId → getSurface st' id' = getSurface st id') := by
  obtain ⟨el, st1, he, hg1, hi1, hd1, ha1, ho1⟩ :=
    getSurfaceElement_registered st surfaceId surf h
  refine ⟨{ st1 with surfaces := (setKey st1.surfaces surfaceId
      { cacheState := cs, element := some { el with childNodes := [c] },
        renderAttrs := surf.renderAttrs }) },
    { cacheState := cs, element := some { el with childNodes := [c] },
      renderAttrs := surf.renderAttrs },
    ?_, findVal_setKey_self _ _ _, rfl, rfl, hi1, hd1, ha1, ?_⟩
  · simp only [surfaceRerender, he, hg1]
  · intro id' hne
    calc findVal (setKey st1.surfaces surfaceId _) id'
        = findVal st1.surfaces id' := findVal_setKey_ne _ _ _ _ hne
      _ = getSurface st id' := ho1 id' hne

/-- When the stored cacheState already equals the string content's
    hashcode, `renderSurfaceContent` is a no-op: no DOM mutation, and the
    state is returned unchanged (the trailing cacheState assignment writes
    back the identical value). -/
theorem renderSurfaceContent_cached (st : ComponentState) (surfaceId : String)
    (surf : Surface) (s : List Char) (h : getSurface st surfaceId = some surf)
    (hc : surf.cacheState = .hash (hashCode s)) :
    renderSurfaceContent st surfaceId (some (.str s)) = .ok (st, false) := by
  simp only [renderSurfaceContent, h, computeSurfaceCacheState]
  rw [if_neg (by simp), if_neg (by simp [hc])]
  have hsurf : ({ surf with cacheState := CacheState.hash (hashCode s) }) = surf := by
    rw [← hc]
  rw [hsurf, setKey_findVal_eq st.surfaces surfaceId surf h]

/-- Totality and frame lemma for `renderSurfaceContent` on a registered
    surface: the call succeeds, stores the freshly computed fingerprint
    unconditionally, keeps the surface's `renderAttrs`, leaves every
    other surface and all other component fields unchanged, and mutates
    the DOM exactly when the computed fingerprint is `NOT_INITIALIZED`,
    `NOT_CACHEABLE`, or differs from the stored one. -/
theorem renderSurfaceContent_registered (st : ComponentState) (surfaceId : String)
    (surf : Surface) (c : Content) (h : getSurface st surfaceId = some surf) :
    ∃ st' surf' b, renderSurfaceContent st surfaceId (some c) = .ok (st', b) ∧
      getSurface st' surfaceId = some surf' ∧
      surf'.cacheState = computeSurfaceCacheState c ∧
      surf'.renderAttrs = surf.renderAttrs ∧
      st'.surfacesRenderAttrs = st.surfacesRenderAttrs ∧
      st'.inDocument = st.inDocument ∧
      st'.attrsSyncMerged = st.attrsSyncMerged ∧
      (∀ id', id' ≠ surfaceId → getSurface st' id' = getSurface st id') ∧
      (b = true ↔ (computeSurfaceCacheState c = .notInitialized ∨
        computeSurfaceCacheState c = .notCacheable ∨
        computeSurfaceCacheState c ≠ surf.cacheState)) := by
  cases c with
  | obj d =>
    obtain ⟨st', surf', hr, hg, hcs, hra, hf1, hf2, hf3, hoth⟩ :=
      surfaceRerender_registered st surfaceId surf (computeSurfaceCacheState (.obj d))
        (.obj d) h
    refine ⟨st', surf', true, ?_, hg, hcs, hra, hf1, hf2, hf3, hoth, ?_⟩
    · simp only [renderSurfaceContent]
      rw [if_pos (by simp [computeSurfaceCacheState])]
      exact hr
    · exact iff_of_true rfl (Or.inr (Or.inl (by simp [computeSurfaceCacheState])))
  | str s =>
    by_cases heq : surf.cacheState = .hash (hashCode s)
    · refine ⟨st, surf, false, renderSurfaceContent_cached st surfaceId surf s h heq,
        h, heq, rfl, rfl, rfl, rfl, fun _ _ => rfl, ?_⟩
      refine iff_of_false (by simp) ?_
      intro hor
      rcases hor with h1 | h2 | h3
      · simp [computeSurfaceCacheState] at h1
      · simp [computeSurfaceCacheState] at h2
      · exact h3 heq.symm
    · obtain ⟨st', surf', hr, hg, hcs, hra, hf1, hf2, hf3, hoth⟩ :=
        surfaceRerender_registered st surfaceId surf (computeSurfaceCacheState (.str s))
          (.str s) h
      refine ⟨st', surf', true, ?_, hg, hcs, hra, hf1, hf2, hf3, hoth, ?_⟩
      · simp only [renderSurfaceContent, h]
        rw [if_neg (by simp [computeSurfaceCacheState]),
          if_pos (show computeSurfaceCacheState (.str s) ≠ surf.cacheState from
            fun hh => heq hh.symm)]
        exact hr
      · exact iff_of_true rfl (Or.inr (Or.inr (fun hh => heq hh.symm)))

/-- `renderSurfaceContent` with real content and an unregistered surface
    id throws a TypeError: for string content by reading `cacheState` of
    the null registry-lookup result, for non-string content by handing the
    null surface element to `dom.removeChildren`. -/
theorem renderSurfaceContent_unregistered (st : ComponentState) (surfaceId : String)
    (c : Content) (h : getSurface st surfaceId = none) :
    renderSurfaceContent st surfaceId (some c) = .error .typeError := by
  cases c with
  | obj d =>
    simp only [renderSurfaceContent]
    rw [if_pos (by simp [computeSurfaceCacheState])]
    simp only [surfaceRerender, getSurfaceElement, h]
  | str s =>
    simp only [renderSurfaceContent, h]
    rw [if_neg (by simp [computeSurfaceCacheState])]

/-- C1: for a registered surface whose stored cacheState is not already
    the string's fingerprint (in particular a freshly registered surface,
    whose cacheState is `NOT_INITIALIZED`), rendering the same string
    twice mutates the DOM on the first call only: the second call returns
    the first call's state completely unchanged — same surface element,
    same stored cacheState — and reports no DOM mutation, because the
    computed fingerprint equals the stored one. -/
theorem spec_C1 (st : ComponentState) (surfaceId : String) (surf : Surface)
    (s : List Char) (hreg : getSurface st surfaceId = some surf)
    (hfresh : surf.cacheState ≠ .hash (hashCode s)) :
    ∃ st1, renderSurfaceContent st surfaceId (some (.str s)) = .ok (st1, true) ∧
      renderSurfaceContent st1 surfaceId (some (.str s)) = .ok (st1, false) := by
  obtain ⟨st1, surf1, b, hr, hg, hcs, _, _, _, _, _, hb⟩ :=
    renderSurfaceContent_registered st surfaceId surf (.str s) hreg
  have hbt : b = true := hb.mpr (Or.inr (Or.inr (fun hh => hfresh hh.symm)))
  subst hbt
  exact ⟨st1, hr, renderSurfaceContent_cached st1 surfaceId surf1 s hg hcs⟩

theorem spec_C1_witness :
    ∃ st1, renderSurfaceContent exComp "s" (some (.str ['X'])) = .ok (st1, true) ∧
      renderSurfaceContent st1 "s" (some (.str ['X'])) = .ok (st1, false) :=
  spec_C1 exComp "s" defaultSurfaceConfig ['X'] rfl (by decide)

/-- C2, counterexample: the strings "Aa" and "BB" differ but share the
    32-bit hashcode 2112, so after rendering "Aa" into the fresh surface
    `"s"` of `exComp`, rendering "BB" performs no DOM re-render at all —
    it returns the intermediate state unchanged with the mutation flag
    false — even though the string contents differ. -/
theorem spec_C2_counterexample :
    (['A', 'a'] ≠ (['B', 'B'] : List Char)) ∧
    hashCode ['A', 'a'] = hashCode ['B', 'B'] ∧
    (renderSurfaceContent exComp "s" (some (.str ['A', 'a']))).map
        (fun p => p.2) = .ok true ∧
    (renderSurfaceContent exComp "s" (some (.str ['A', 'a']))).bind
        (fun p => renderSurfaceContent p.1 "s" (some (.str ['B', 'B']))) =
      (renderSurfaceContent exComp "s" (some (.str ['A', 'a']))).map
        (fun p => (p.1, false)) := by
  refine ⟨by decide, by decide, rfl, rfl⟩

/-- C2, amended: after rendering string `s1` into a registered surface, a
    second call with string `s2` re-renders the surface's DOM if and only
    if the 32-bit hashcodes of `s2` and `s1` differ; when the hashcodes
    agree (identical strings, but also distinct colliding strings) the
    second call leaves the state unchanged. -/
theorem spec_C2_amended (st : ComponentState) (surfaceId : String) (surf : Surface)
    (s1 s2 : List Char) (hreg : getSurface st surfaceId = some surf) :
    ∃ st1 b1, renderSurfaceContent st surfaceId (some (.str s1)) = .ok (st1, b1) ∧
      ∃ st2 b2, renderSurfaceContent st1 surfaceId (some (.str s2)) = .ok (st2, b2) ∧
        (b2 = true ↔ hashCode s2 ≠ hashCode s1) ∧
        (hashCode s2 = hashCode s1 → st2 = st1 ∧ b2 = false) := by
  obtain ⟨st1, surf1, b1, hr1, hg1, hcs1, _, _, _, _, _, _⟩ :=
    renderSurfaceContent_registered st surfaceId surf (.str s1) hreg
  obtain ⟨st2, surf2, b2, hr2, hg2, hcs2, _, _, _, _, _, hb2⟩ :=
    renderSurfaceContent_registered st1 surfaceId surf1 (.str s2) hg1
  refine ⟨st1, b1, hr1, st2, b2, hr2, ?_, ?_⟩
  · rw [hb2]
    constructor
    · intro hor hh
      rcases hor with h1 | h2 | h3
      · simp [computeSurfaceCacheState] at h1
      · simp [computeSurfaceCacheState] at h2
      · exact h3 (by rw [hcs1]; exact congrArg CacheState.hash hh)
    · intro hh
      refine Or.inr (Or.inr ?_)
      rw [hcs1]
      intro hc
      exact hh (CacheState.hash.inj hc)
  · intro heq
    have hcached : renderSurfaceContent st1 surfaceId (some (.str s2)) = .ok (st1, false) :=
      renderSurfaceContent_cached st1 surfaceId surf1 s2 hg1
        (hcs1.trans (congrArg CacheState.hash heq.symm))
    have hpair : (st2, b2) = (st1, false) :=
      Except.ok.inj (hr2.symm.trans hcached)
    exact ⟨congrArg Prod.fst hpair, congrArg Prod.snd hpair⟩

theorem spec_C2_amended_witness :
    ∃ st1 b1, renderSurfaceContent exComp "s" (some (.str ['A', 'a'])) = .ok (st1, b1) ∧
      ∃ st2 b2, renderSurfaceContent st1 "s" (some (.str ['B', 'B'])) = .ok (st2, b2) ∧
        (b2 = true ↔ hashCode ['B', 'B'] ≠ hashCode ['A', 'a']) ∧
        (hashCode ['B', 'B'] = hashCode ['A', 'a'] → st2 = st1 ∧ b2 = false) :=
  spec_C2_amended exComp "s" defaultSurfaceConfig ['A', 'a'] ['B', 'B'] rfl

/-- C10: `renderSurfaceContent` with real (non-null) content requires a
    registered surface: for an unregistered id it throws a TypeError by
    dereferencing the null registry-lookup result instead of returning
    null or no-opping; for a registered id the call always returns
    normally. -/
theorem spec_C10 :
    (∀ (st : ComponentState) (surfaceId : String) (c : Content),
      getSurface st surfaceId = none →
        renderSurfaceContent st surfaceId (some c) = .error .typeError) ∧
    (∀ (st : ComponentState) (surfaceId : String) (surf : Surface) (c : Content),
      getSurface st surfaceId = some surf →
        ∃ st' b, renderSurfaceContent st surfaceId (some c) = .ok (st', b)) := by
  constructor
  · intro st surfaceId c h
    exact renderSurfaceContent_unregistered st surfaceId c h
  · intro st surfaceId surf c h
    obtain ⟨st', _, b, hr, _⟩ := renderSurfaceContent_registered st surfaceId surf c h
    exact ⟨st', b, hr⟩

theorem spec_C10_witness :
    renderSurfaceContent exComp "never" (some (.str ['a'])) = .error .typeError ∧
    ∃ st' b, renderSurfaceContent exComp "s" (some (.str ['a'])) = .ok (st', b) :=
  ⟨spec_C10.1 exComp "never" (.str ['a']) (by decide),
    spec_C10.2 exComp "s" defaultSurfaceConfig (.str ['a']) rfl⟩

theorem length_dropWhile_le (p : Char → Bool) (l : List Char) :
    (l.dropWhile p).length ≤ l.length := by
  induction l with
  | nil => simp [List.dropWhile]
  | cons x xs ih =>
    by_cases h : p x = true
    · simp only [List.dropWhile_cons, h, if_true, List.length_cons]
      exact Nat.le_succ_of_le ih
    · simp [List.dropWhile_cons, h]

theorem dropWhile_head_false (p : Char → Bool) :
    ∀ (l : List Char) (x : Char) (xs : List Char),
      l.dropWhile p = x :: xs → p x = false := by
  intro l
  induction l with
  | nil => intro x xs h; simp [List.dropWhile] at h
  | cons a as ih =>
    intro x xs h
    by_cases ha : p a = true
    · rw [List.dropWhile_cons, if_pos ha] at h
      exact ih x xs h
    · rw [List.dropWhile_cons, if_neg ha] at h
      cases h
      exact Bool.eq_false_iff.mpr ha

theorem dropWhile_eq_self_of_all (p : Char → Bool) (l : List Char)
    (h : ∀ x ∈ l, p x = false) : l.dropWhile p = l := by
  cases l with
  | nil => rfl
  | cons a as =>
    rw [List.dropWhile_cons, if_neg]
    simp [h a (List.mem_cons_self a as)]

theorem trimRight_eq_self_of_all (l : List Char)
    (h : ∀ x ∈ l, isBreakingSpace x = false) : trimRight l = l := by
  unfold trimRight
  rw [dropWhile_eq_self_of_all _ _ (fun x hx => h x (List.mem_reverse.mp hx)),
    List.reverse_reverse]

theorem trimRight_ne_nil_iff (l : List Char) :
    trimRight l ≠ [] ↔ l.reverse.dropWhile isBreakingSpace ≠ [] := by
  unfold trimRight
  rw [not_iff_not]
  exact List.reverse_eq_nil_iff

theorem trimRight_append (a b : List Char) (h : trimRight b ≠ []) :
    trimRight (a ++ b) = a ++ trimRight b := by
  have hb : ¬ (b.reverse.dropWhile isBreakingSpace).isEmpty = true := by
    rw [List.isEmpty_iff]
    exact (trimRight_ne_nil_iff b).mp h
  unfold trimRight
  rw [List.reverse_append, List.dropWhile_append, if_neg hb, List.reverse_append,
    List.reverse_reverse]

theorem collapseRuns_nb_cons (c : Char) (cs : List Char)
    (hc : isBreakingSpace c = false) :
    collapseRuns (c :: cs) = c :: collapseRuns cs := by
  cases cs with
  | nil => simp [collapseRuns, hc]
  | cons d ds => simp [collapseRuns, hc]

theorem collapseRuns_br_cons (c : Char) (cs : List Char)
    (hc : isBreakingSpace c = true) :
    collapseRuns (c :: cs) =
      ' ' :: collapseRuns (cs.dropWhile isBreakingSpace) := by
  induction cs generalizing c with
  | nil => simp [collapseRuns, hc, List.dropWhile]
  | cons d ds ih =>
    by_cases hd : isBreakingSpace d = true
    · rw [show collapseRuns (c :: d :: ds) = collapseRuns (d :: ds) by
        simp [collapseRuns, hc, hd], ih d hd, List.dropWhile_cons, if_pos hd]
    · have hd' : isBreakingSpace d = false := Bool.eq_false_iff.mpr hd
      rw [show collapseRuns (c :: d :: ds) = ' ' :: collapseRuns (d :: ds) by
        simp [collapseRuns, hc, hd'], List.dropWhile_cons, if_neg hd]

theorem collapseRuns_append_nb (tok rest : List Char)
    (h : ∀ x ∈ tok, isBreakingSpace x = false) :
    collapseRuns (tok ++ rest) = tok ++ collapseRuns rest := by
  induction tok with
  | nil => rfl
  | cons a as ih =>
    rw [List.cons_append,
      collapseRuns_nb_cons a (as ++ rest) (h a (List.mem_cons_self a as)),
      ih (fun x hx => h x (List.mem_cons_of_mem a hx)), List.cons_append]

theorem breakingTokens_br_cons (c : Char) (cs : List Char)
    (hc : isBreakingSpace c = true) :
    breakingTokens (c :: cs) = breakingTokens cs := by
  simp [breakingTokens, hc]

theorem breakingTokens_nb_cons (cs : List Char) :
    ∀ (c : Char), isBreakingSpace c = false →
    breakingTokens (c :: cs) =
      (c :: cs.takeWhile (fun x => !isBreakingSpace x)) ::
        breakingTokens (cs.dropWhile (fun x => !isBreakingSpace x)) := by
  induction cs with
  | nil =>
    intro c hc
    simp [breakingTokens, tokensCons, hc, List.takeWhile, List.dropWhile]
  | cons d ds ih =>
    intro c hc
    by_cases hd : isBreakingSpace d = true
    · have htk : List.takeWhile (fun x => !isBreakingSpace x) (d :: ds) = [] := by
        simp [List.takeWhile_cons, hd]
      have hdw : List.dropWhile (fun x => !isBreakingSpace x) (d :: ds) = d :: ds := by
        simp [List.dropWhile_cons, hd]
      rw [htk, hdw]
      have hunf : breakingTokens (c :: d :: ds) =
          tokensCons c (d :: ds) (breakingTokens (d :: ds)) := by
        simp [breakingTokens, hc]
      rw [hunf]
      cases hts : breakingTokens (d :: ds) with
      | nil => simp [tokensCons, hd]
      | cons t ts => simp [tokensCons, hd]
    · have hd' : isBreakingSpace d = false := Bool.eq_false_iff.mpr hd
      have htk : List.takeWhile (fun x => !isBreakingSpace x) (d :: ds) =
          d :: List.takeWhile (fun x => !isBreakingSpace x) ds := by
        simp [List.takeWhile_cons, hd']
      have hdw : List.dropWhile (fun x => !isBreakingSpace x) (d :: ds) =
          List.dropWhile (fun x => !isBreakingSpace x) ds := by
        simp [List.dropWhile_cons, hd']
      rw [htk, hdw]
      have hunf : breakingTokens (c :: d :: ds) =
          tokensCons c (d :: ds) (breakingTokens (d :: ds)) := by
        simp [breakingTokens, hc]
      rw [hunf, ih d hd']
      simp [tokensCons, hd']

theorem breakingTokens_dropWhile (l : List Char) :
    breakingTokens (l.dropWhile isBreakingSpace) = breakingTokens l := by
  induction l with
  | nil => rfl
  | cons c cs ih =>
    by_cases hc : isBreakingSpace c = true
    · rw [List.dropWhile_cons, if_pos hc, ih, breakingTokens_br_cons c cs hc]
    · rw [List.dropWhile_cons, if_neg hc]

theorem breakingTokens_first_ne_nil (l : List Char) (t : List Char)
    (ts : List (List Char)) (h : breakingTokens l = t :: ts) : t ≠ [] := by
  induction l generalizing t ts with
  | nil => simp [breakingTokens] at h
  | cons c cs ih =>
    by_cases hc : isBreakingSpace c = true
    · rw [breakingTokens_br_cons c cs hc] at h
      exact ih t ts h
    · rw [breakingTokens_nb_cons cs c (Bool.eq_false_iff.mpr hc)] at h
      cases h
      simp

theorem dropWhile_br_eq_nil_of_tokens_nil (l : List Char)
    (h : breakingTokens l = []) : l.dropWhile isBreakingSpace = [] := by
  induction l with
  | nil => rfl
  | cons c cs ih =>
    by_cases hc : isBreakingSpace c = true
    · rw [breakingTokens_br_cons c cs hc] at h
      rw [List.dropWhile_cons, if_pos hc]
      exact ih h
    · rw [breakingTokens_nb_cons cs c (Bool.eq_false_iff.mpr hc)] at h
      cases h

theorem joinTokens_cons_ne (t : List Char) (ts : List (List Char)) (h : ts ≠ []) :
    joinTokens (t :: ts) = t ++ ' ' :: joinTokens ts := by
  cases ts with
  | nil => exact absurd rfl h
  | cons u us => rfl

theorem joinTokens_first_ne_nil (t : List Char) (ts : List (List Char))
    (ht : t ≠ []) : joinTokens (t :: ts) ≠ [] := by
  cases ts with
  | nil => exact ht
  | cons u us =>
    simp [joinTokens]

/-- `string.collapseBreakingSpaces` computes exactly the spec's normal
    form: the maximal non-whitespace tokens joined by single spaces. -/
theorem collapse_eq_normalized (l : List Char) :
    collapseBreakingSpaces l = normalizedBreakingSpaces l := by
  match l with
  | [] => rfl
  | c :: cs =>
    by_cases hc : isBreakingSpace c = true
    · have h1 : collapseBreakingSpaces (c :: cs) =
          collapseBreakingSpaces (cs.dropWhile isBreakingSpace) := by
        unfold collapseBreakingSpaces trimBreaking
        rw [collapseRuns_br_cons c cs hc, List.dropWhile_cons, if_pos (by decide)]
      rw [h1, collapse_eq_normalized (cs.dropWhile isBreakingSpace)]
      unfold normalizedBreakingSpaces
      rw [breakingTokens_dropWhile, breakingTokens_br_cons c cs hc]
    · have hc' : isBreakingSpace c = false := Bool.eq_false_iff.mpr hc
      have htokeq := breakingTokens_nb_cons cs c hc'
      have htokall : ∀ x ∈ (c :: List.takeWhile (fun x => !isBreakingSpace x) cs),
          isBreakingSpace x = false := by
        intro x hx
        rcases List.mem_cons.mp hx with hx | hx
        · rw [hx]; exact hc'
        · simpa using List.mem_takeWhile_imp hx
      have hcr : collapseRuns (c :: cs) =
          (c :: List.takeWhile (fun x => !isBreakingSpace x) cs) ++
            collapseRuns (List.dropWhile (fun x => !isBreakingSpace x) cs) := by
        calc collapseRuns (c :: cs)
              = collapseRuns ((c :: List.takeWhile (fun x => !isBreakingSpace x) cs) ++
                List.dropWhile (fun x => !isBreakingSpace x) cs) := by
                rw [List.cons_append, List.takeWhile_append_dropWhile]
          _ = (c :: List.takeWhile (fun x => !isBreakingSpace x) cs) ++
                collapseRuns (List.dropWhile (fun x => !isBreakingSpace x) cs) :=
                collapseRuns_append_nb _ _ htokall
      cases hrest : List.dropWhile (fun x => !isBreakingSpace x) cs with
      | nil =>
        rw [hrest] at hcr htokeq
        rw [show collapseRuns ([] : List Char) = [] from rfl, List.append_nil] at hcr
        unfold collapseBreakingSpaces trimBreaking normalizedBreakingSpaces
        rw [hcr, htokeq, dropWhile_eq_self_of_all _ _ htokall,
          trimRight_eq_self_of_all _ htokall]
        rfl
      | cons r rs =>
        rw [hrest] at hcr htokeq
        have hrbr : isBreakingSpace r = true := by
          simpa using dropWhile_head_false _ cs r rs hrest
        have hcr2 : collapseRuns (r :: rs) =
            ' ' :: collapseRuns (rs.dropWhile isBreakingSpace) :=
          collapseRuns_br_cons r rs hrbr
        have htokrest : breakingTokens (r :: rs) = breakingTokens rs :=
          breakingTokens_br_cons r rs hrbr
        cases htk2 : breakingTokens rs with
        | nil =>
          have hnil : rs.dropWhile isBreakingSpace = [] :=
            dropWhile_br_eq_nil_of_tokens_nil rs htk2
          rw [hnil, show collapseRuns ([] : List Char) = [] from rfl] at hcr2
          rw [hcr2] at hcr
          unfold collapseBreakingSpaces trimBreaking normalizedBreakingSpaces
          rw [hcr, htokeq, htokrest, htk2]
          have hdw : List.dropWhile isBreakingSpace
              ((c :: List.takeWhile (fun x => !isBreakingSpace x) cs) ++ [' ']) =
              (c :: List.takeWhile (fun x => !isBreakingSpace x) cs) ++ [' '] := by
            rw [List.cons_append, List.dropWhile_cons, if_neg (by simp [hc'])]
          rw [hdw]
          have htr : trimRight
              ((c :: List.takeWhile (fun x => !isBreakingSpace x) cs) ++ [' ']) =
              c :: List.takeWhile (fun x => !isBreakingSpace x) cs := by
            unfold trimRight
            rw [List.reverse_append,
              show (([' '] : List Char).reverse ++
                (c :: List.takeWhile (fun x => !isBreakingSpace x) cs).reverse) =
                ' ' :: (c :: List.takeWhile (fun x => !isBreakingSpace x) cs).reverse
                from rfl,
              List.dropWhile_cons, if_pos (by decide),
              dropWhile_eq_self_of_all _ _
                (fun x hx => htokall x (List.mem_reverse.mp hx)),
              List.reverse_reverse]
          rw [htr]
          rfl
        | cons t ts =>
          cases hr2 : rs.dropWhile isBreakingSpace with
          | nil =>
            rw [← breakingTokens_dropWhile rs, hr2] at htk2
            cases htk2
          | cons x xs =>
            have hx : isBreakingSpace x = false := dropWhile_head_false _ rs x xs hr2
            have hY : collapseRuns (x :: xs) = x :: collapseRuns xs :=
              collapseRuns_nb_cons x xs hx
            have hIH := collapse_eq_normalized (x :: xs)
            have hIH' : trimRight (collapseRuns (x :: xs)) =
                joinTokens (breakingTokens (x :: xs)) := by
              unfold collapseBreakingSpaces trimBreaking normalizedBreakingSpaces at hIH
              rw [hY, List.dropWhile_cons, if_neg (by simp [hx])] at hIH
              rw [hY]
              exact hIH
            have htokx : breakingTokens (x :: xs) = t :: ts := by
              rw [← hr2, breakingTokens_dropWhile rs, htk2]
            have htrY_ne : trimRight (collapseRuns (x :: xs)) ≠ [] := by
              rw [hIH', htokx]
              exact joinTokens_first_ne_nil t ts
                (breakingTokens_first_ne_nil rs t ts htk2)
            rw [hr2] at hcr2
            rw [hcr2] at hcr
            unfold collapseBreakingSpaces trimBreaking normalizedBreakingSpaces
            rw [hcr, htokeq, htokrest, htk2]
            have hdw : List.dropWhile isBreakingSpace
                ((c :: List.takeWhile (fun x => !isBreakingSpace x) cs) ++
                  (' ' :: collapseRuns (x :: xs))) =
                (c :: List.takeWhile (fun x => !isBreakingSpace x) cs) ++
                  (' ' :: collapseRuns (x :: xs)) := by
              rw [List.cons_append, List.dropWhile_cons, if_neg (by simp [hc'])]
            rw [hdw]
            have hassoc : (c :: List.takeWhile (fun x => !isBreakingSpace x) cs) ++
                (' ' :: collapseRuns (x :: xs)) =
                ((c :: List.takeWhile (fun x => !isBreakingSpace x) cs) ++ [' ']) ++
                  collapseRuns (x :: xs) := by
              simp
            rw [hassoc, trimRight_append _ _ htrY_ne, hIH', htokx,
              joinTokens_cons_ne _ _ (List.cons_ne_nil t ts)]
            simp
termination_by l.length
decreasing_by
  · simp only [List.length_cons]
    exact Nat.lt_succ_of_le (length_dropWhile_le _ cs)
  · have h1 : (x :: xs).length ≤ rs.length := by
      rw [← hr2]
      exact length_dropWhile_le _ rs
    have h2 : (r :: rs).length ≤ cs.length := by
      rw [← hrest]
      exact length_dropWhile_le _ cs
    simp only [List.length_cons] at h1 h2 ⊢
    omega

/-- Every token of the normal form is nonempty and free of breaking
    spaces. -/
theorem breakingTokens_mem_props (l : List Char) :
    ∀ t ∈ breakingTokens l, t ≠ [] ∧ ∀ x ∈ t, isBreakingSpace x = false := by
  match l with
  | [] =>
    intro t ht
    simp [breakingTokens] at ht
  | c :: cs =>
    by_cases hc : isBreakingSpace c = true
    · rw [breakingTokens_br_cons c cs hc]
      exact breakingTokens_mem_props cs
    · have hc' : isBreakingSpace c = false := Bool.eq_false_iff.mpr hc
      rw [breakingTokens_nb_cons cs c hc']
      intro t ht
      rcases List.mem_cons.mp ht with rfl | ht
      · refine ⟨by simp, ?_⟩
        intro x hx
        rcases List.mem_cons.mp hx with rfl | hx
        · exact hc'
        · simpa using List.mem_takeWhile_imp hx
      · exact breakingTokens_mem_props
          (cs.dropWhile (fun x => !isBreakingSpace x)) t ht
termination_by l.length
decreasing_by
  · simp
  · simp only [List.length_cons]
    exact Nat.lt_succ_of_le (length_dropWhile_le _ cs)

/-- C6: the whitespace normalizer seeding the decoration-time surface
    cache (`string.collapseBreakingSpaces`) returns exactly the maximal
    non-whitespace tokens joined by single spaces — so every interior run
    of breaking spaces (tab, carriage return, newline, space) collapses to
    one space, nothing breaking leads or trails (every token is nonempty
    and breaking-free), and two inputs differing only in such whitespace
    runs (equal token lists) normalize, hence hash, identically. -/
theorem spec_C6 (l1 l2 : List Char) :
    collapseBreakingSpaces l1 = normalizedBreakingSpaces l1 ∧
    (∀ t ∈ breakingTokens l1, t ≠ [] ∧ ∀ x ∈ t, isBreakingSpace x = false) ∧
    (breakingTokens l1 = breakingTokens l2 →
      collapseBreakingSpaces l1 = collapseBreakingSpaces l2) := by
  refine ⟨collapse_eq_normalized l1, breakingTokens_mem_props l1, fun h => ?_⟩
  rw [collapse_eq_normalized l1, collapse_eq_normalized l2]
  unfold normalizedBreakingSpaces
  rw [h]

theorem spec_C6_witness :
    collapseBreakingSpaces [' ', 'a', '\t', '\t', 'b', ' '] =
      normalizedBreakingSpaces [' ', 'a', '\t', '\t', 'b', ' '] ∧
    collapseBreakingSpaces [' ', 'a', '\t', '\t', 'b', ' '] =
      collapseBreakingSpaces ['a', '\n', 'b'] :=
  ⟨(spec_C6 [' ', 'a', '\t', '\t', 'b', ' '] ['a', '\n', 'b']).1,
    (spec_C6 [' ', 'a', '\t', '\t', 'b', ' '] ['a', '\n', 'b']).2.2 (by decide)⟩

theorem unionIds_mem (a b : List String) (x : String) :
    x ∈ unionIds a b ↔ x ∈ a ∨ x ∈ b := by
  unfold unionIds
  rw [List.mem_append, List.mem_filter]
  constructor
  · rintro (h | ⟨h, _⟩)
    · exact Or.inl h
    · exact Or.inr h
  · rintro (h | h)
    · exact Or.inl h
    · by_cases ha : x ∈ a
      · exact Or.inl ha
      · exact Or.inr ⟨h, by simpa using ha⟩

theorem mem_getModifiedSurfaces (st : ComponentState)
    (changes : List (String × AttrChange)) (sid : String) :
    sid ∈ getModifiedSurfacesFromChanges st changes ↔
      ∃ p ∈ changes, sid ∈ (findVal st.surfacesRenderAttrs p.1).getD [] := by
  have general : ∀ (chs : List (String × AttrChange)) (acc : List String),
      sid ∈ chs.foldl
        (fun acc p => unionIds acc ((findVal st.surfacesRenderAttrs p.1).getD [])) acc ↔
      (sid ∈ acc ∨ ∃ p ∈ chs, sid ∈ (findVal st.surfacesRenderAttrs p.1).getD []) := by
    intro chs
    induction chs with
    | nil => intro acc; simp
    | cons q qs ih =>
      intro acc
      rw [List.foldl_cons, ih, unionIds_mem]
      constructor
      · rintro ((h | h) | ⟨p, hp, hmem⟩)
        · exact Or.inl h
        · exact Or.inr ⟨q, List.mem_cons_self q qs, h⟩
        · exact Or.inr ⟨p, List.mem_cons_of_mem q hp, hmem⟩
      · rintro (h | ⟨p, hp, hmem⟩)
        · exact Or.inl (Or.inl h)
        · rcases List.mem_cons.mp hp with rfl | hp
          · exact Or.inl (Or.inr hmem)
          · exact Or.inr ⟨p, hp, hmem⟩
  have h := general changes []
  simpa [getModifiedSurfacesFromChanges] using h

theorem indexAdd_mem (idx : List (String × List String)) (attr surfaceId b x : String) :
    x ∈ (findVal (indexAdd idx attr surfaceId) b).getD [] ↔
      (x ∈ (findVal idx b).getD [] ∨ (b = attr ∧ x = surfaceId)) := by
  unfold indexAdd
  by_cases hb : b = attr
  · subst hb
    rw [findVal_setKey_self]
    by_cases hmem : surfaceId ∈ (findVal idx b).getD []
    · rw [if_pos hmem]
      constructor
      · exact fun h => Or.inl h
      · rintro (h | ⟨_, rfl⟩)
        · exact h
        · exact hmem
    · rw [if_neg hmem]
      simp only [Option.getD_some, List.mem_append, List.mem_singleton]
      tauto
  · rw [findVal_setKey_ne _ _ _ _ hb]
    constructor
    · exact fun h => Or.inl h
    · rintro (h | ⟨hba, _⟩)
      · exact h
      · exact absurd hba hb

theorem foldl_indexAdd_mem (attrs : List String) (idx : List (String × List String))
    (surfaceId b x : String) :
    x ∈ (findVal (attrs.foldl (fun i a => indexAdd i a surfaceId) idx) b).getD [] ↔
      (x ∈ (findVal idx b).getD [] ∨ (b ∈ attrs ∧ x = surfaceId)) := by
  induction attrs generalizing idx with
  | nil => simp
  | cons a as ih =>
    rw [List.foldl_cons, ih, indexAdd_mem]
    constructor
    · rintro ((h | ⟨rfl, rfl⟩) | ⟨hmem, rfl⟩)
      · exact Or.inl h
      · exact Or.inr ⟨List.mem_cons_self _ _, rfl⟩
      · exact Or.inr ⟨List.mem_cons_of_mem _ hmem, rfl⟩
    · rintro (h | ⟨hmem, rfl⟩)
      · exact Or.inl (Or.inl h)
      · rcases List.mem_cons.mp hmem with rfl | hmem
        · exact Or.inl (Or.inr ⟨rfl, rfl⟩)
        · exact Or.inr ⟨hmem, rfl⟩

theorem setKey_of_findVal_none {α : Type} (m : List (String × α)) (k : String) (v : α)
    (h : findVal m k = none) : setKey m k v = m ++ [(k, v)] := by
  induction m with
  | nil => rfl
  | cons p rest ih =>
    by_cases hp : p.1 = k
    · rw [findVal, if_pos hp] at h
      cases h
    · rw [findVal, if_neg hp] at h
      rw [setKey, if_neg hp, ih h, List.cons_append]

theorem findVal_append {α : Type} (m m' : List (String × α)) (k : String) :
    findVal (m ++ m') k =
      (match findVal m k with
       | some v => some v
       | none => findVal m' k) := by
  induction m with
  | nil => rfl
  | cons p rest ih =>
    by_cases hp : p.1 = k
    · rw [List.cons_append, findVal, if_pos hp, findVal, if_pos hp]
    · rw [List.cons_append, findVal, if_neg hp, findVal, if_neg hp, ih]

theorem findVal_of_mem_nodup {α : Type} (m : List (String × α)) (k : String) (v : α)
    (hmem : (k, v) ∈ m) (hnd : (m.map (fun p => p.1)).Nodup) :
    findVal m k = some v := by
  induction m with
  | nil => cases hmem
  | cons p rest ih =>
    rcases List.mem_cons.mp hmem with rfl | hmem
    · rw [findVal, if_pos rfl]
    · have hp : p.1 ≠ k := by
        intro hk
        have : k ∈ rest.map (fun p => p.1) :=
          List.mem_map.mpr ⟨(k, v), hmem, rfl⟩
        rw [List.map_cons, List.nodup_cons, hk] at hnd
        exact hnd.1 this
      rw [findVal, if_neg hp]
      exact ih hmem ((List.nodup_cons.mp (by rw [List.map_cons] at hnd; exact hnd)).2)

theorem cacheSurfaceRenderAttrs_frame (st : ComponentState) (surfaceId : String) :
    (cacheSurfaceRenderAttrs st surfaceId).surfaces = st.surfaces ∧
    (cacheSurfaceRenderAttrs st surfaceId).inDocument = st.inDocument ∧
    (cacheSurfaceRenderAttrs st surfaceId).attrsSyncMerged = st.attrsSyncMerged := by
  unfold cacheSurfaceRenderAttrs
  split
  · exact ⟨rfl, rfl, rfl⟩
  · exact ⟨rfl, rfl, rfl⟩

theorem cacheSurfaceRenderAttrs_index (st : ComponentState) (surfaceId : String)
    (surf : Surface) (h : getSurface st surfaceId = some surf) :
    (cacheSurfaceRenderAttrs st surfaceId).surfacesRenderAttrs =
      surf.renderAttrs.foldl (fun i a => indexAdd i a surfaceId)
        st.surfacesRenderAttrs := by
  unfold cacheSurfaceRenderAttrs
  rw [h]

/-- The cumulative effect of `addSurfaces` on a state whose registry does
    not yet contain any of the added ids: the configs are appended to the
    registry, and an id lands in the index entry of an attribute exactly
    when it was already there or one of the added configs declares it. -/
theorem addSurfaces_spec :
    ∀ (configs : List (String × Surface)) (st : ComponentState),
    (∀ p ∈ configs, findVal st.surfaces p.1 = none) →
    ((configs.map (fun p => p.1)).Nodup) →
    (addSurfaces st configs).surfaces = st.surfaces ++ configs ∧
    (∀ b x, x ∈ (findVal (addSurfaces st configs).surfacesRenderAttrs b).getD [] ↔
      (x ∈ (findVal st.surfacesRenderAttrs b).getD [] ∨
        ∃ cfg, (x, cfg) ∈ configs ∧ b ∈ cfg.renderAttrs)) ∧
    (addSurfaces st configs).inDocument = st.inDocument ∧
    (addSurfaces st configs).attrsSyncMerged = st.attrsSyncMerged := by
  intro configs
  induction configs with
  | nil =>
    intro st _ _
    refine ⟨(List.append_nil _).symm, ?_, rfl, rfl⟩
    intro b x
    show x ∈ (findVal st.surfacesRenderAttrs b).getD [] ↔ _
    simp
  | cons q rest ih =>
    intro st hdisj hnd
    obtain ⟨id, cfg⟩ := q
    have hstep : addSurfaces st ((id, cfg) :: rest) =
        addSurfaces (addSurface st id (some cfg)) rest := rfl
    have hnone : findVal st.surfaces id = none :=
      hdisj (id, cfg) (List.mem_cons_self _ _)
    have haddeq : addSurface st id (some cfg) =
        cacheSurfaceRenderAttrs
          { st with surfaces := (setKey st.surfaces id cfg) } id := rfl
    have hidx' : (addSurface st id (some cfg)).surfacesRenderAttrs =
        cfg.renderAttrs.foldl (fun i a => indexAdd i a id)
          st.surfacesRenderAttrs := by
      rw [haddeq, cacheSurfaceRenderAttrs_index
        { st with surfaces := (setKey st.surfaces id cfg) } id cfg
        (findVal_setKey_self st.surfaces id cfg)]
    have hsurf' : (addSurface st id (some cfg)).surfaces =
        st.surfaces ++ [(id, cfg)] := by
      rw [haddeq, (cacheSurfaceRenderAttrs_frame _ _).1]
      exact setKey_of_findVal_none st.surfaces id cfg hnone
    have hdoc' : (addSurface st id (some cfg)).inDocument = st.inDocument := by
      rw [haddeq]
      exact (cacheSurfaceRenderAttrs_frame _ _).2.1
    have hsync' : (addSurface st id (some cfg)).attrsSyncMerged =
        st.attrsSyncMerged := by
      rw [haddeq]
      exact (cacheSurfaceRenderAttrs_frame _ _).2.2
    have hndtl : ((rest.map (fun p => p.1)).Nodup) :=
      (List.nodup_cons.mp (by rw [List.map_cons] at hnd; exact hnd)).2
    have hidfresh : id ∉ rest.map (fun p => p.1) :=
      (List.nodup_cons.mp (by rw [List.map_cons] at hnd; exact hnd)).1
    have hdisj' : ∀ p ∈ rest, findVal (addSurface st id (some cfg)).surfaces p.1 = none := by
      intro p hp
      have hpne : id ≠ p.1 := by
        intro he
        exact hidfresh (he ▸ List.mem_map.mpr ⟨p, hp, rfl⟩)
      rw [hsurf', findVal_append, hdisj p (List.mem_cons_of_mem _ hp)]
      show findVal [(id, cfg)] p.1 = none
      rw [show findVal [(id, cfg)] p.1 =
        if id = p.1 then some cfg else findVal [] p.1 from rfl, if_neg hpne]
      rfl
    obtain ⟨ihs, ihm, ihd, ihy⟩ := ih (addSurface st id (some cfg)) hdisj' hndtl
    refine ⟨?_, ?_, ?_, ?_⟩
    · rw [hstep, ihs, hsurf', List.append_assoc]
      rfl
    · intro b x
      rw [hstep, ihm b x, hidx', foldl_indexAdd_mem]
      constructor
      · rintro ((h | ⟨hb, rfl⟩) | ⟨cfg', hc', hb'⟩)
        · exact Or.inl h
        · exact Or.inr ⟨cfg, List.mem_cons_self _ _, hb⟩
        · exact Or.inr ⟨cfg', List.mem_cons_of_mem _ hc', hb'⟩
      · rintro (h | ⟨cfg', hc', hb'⟩)
        · exact Or.inl (Or.inl h)
        · rcases List.mem_cons.mp hc' with he | hc'
          · injection he with h1 h2
            subst h1
            subst h2
            exact Or.inl (Or.inr ⟨hb', rfl⟩)
          · exact Or.inr ⟨cfg', hc', hb'⟩
    · rw [hstep, ihd, hdoc']
    · rw [hstep, ihy, hsync']

/-- `addSurfacesFromStaticHint_` builds registry and index from scratch:
    the registry is exactly the merged config list, and the index entry of
    an attribute holds exactly the ids whose config declares it in
    `renderAttrs`. -/
theorem initSurfaces_spec (st0 : ComponentState) (configs : List (String × Surface))
    (hnd : (configs.map (fun p => p.1)).Nodup) :
    (initSurfaces st0 configs).surfaces = configs ∧
    (∀ b x, x ∈ (findVal (initSurfaces st0 configs).surfacesRenderAttrs b).getD [] ↔
      ∃ cfg, (x, cfg) ∈ configs ∧ b ∈ cfg.renderAttrs) ∧
    (initSurfaces st0 configs).inDocument = st0.inDocument ∧
    (initSurfaces st0 configs).attrsSyncMerged = st0.attrsSyncMerged := by
  obtain ⟨hs, hm, hd, hy⟩ := addSurfaces_spec configs
    { st0 with surfaces := [], surfacesRenderAttrs := [] }
    (fun _ _ => rfl) hnd
  refine ⟨?_, ?_, hd, hy⟩
  · rw [show initSurfaces st0 configs =
      addSurfaces { st0 with surfaces := [], surfacesRenderAttrs := [] } configs
      from rfl, hs]
    rfl
  · intro b x
    rw [show initSurfaces st0 configs =
      addSurfaces { st0 with surfaces := [], surfacesRenderAttrs := [] } configs
      from rfl, hm b x]
    simp [findVal]

/-- `renderSurfacesContent_` over a set of registered surface ids always
    succeeds, leaves every surface outside the set untouched, and does not
    change the merged sync-attribute set. -/
theorem renderSurfacesContent_ok (hooks : Hooks) :
    ∀ (surfaceIds : List String) (st : ComponentState),
    (∀ i ∈ surfaceIds, ∃ surf, getSurface st i = some surf) →
    ∃ st', renderSurfacesContent hooks st surfaceIds = .ok st' ∧
      (∀ i, i ∉ surfaceIds → getSurface st' i = getSurface st i) ∧
      st'.attrsSyncMerged = st.attrsSyncMerged := by
  intro surfaceIds
  induction surfaceIds with
  | nil =>
    intro st _
    exact ⟨st, rfl, fun _ _ => rfl, rfl⟩
  | cons id rest ih =>
    intro st hreg
    cases hcnt : hooks.getSurfaceContent id with
    | none =>
      obtain ⟨st', hok, hoth, hsync⟩ :=
        ih st (fun i hi => hreg i (List.mem_cons_of_mem _ hi))
      refine ⟨st', ?_, fun i hni => hoth i (fun hh => hni (List.mem_cons_of_mem _ hh)),
        hsync⟩
      show (match renderSurfaceContent st id (hooks.getSurfaceContent id) with
        | Except.error e => Except.error e
        | Except.ok (st1, _) => renderSurfacesContent hooks st1 rest) = Except.ok st'
      rw [hcnt]
      exact hok
    | some c =>
      obtain ⟨surf, hsurf⟩ := hreg id (List.mem_cons_self _ _)
      obtain ⟨st1, surf1, b, hr, hg1, _, _, _, _, hy1, hoth1, _⟩ :=
        renderSurfaceContent_registered st id surf c hsurf
      have hreg1 : ∀ i ∈ rest, ∃ s, getSurface st1 i = some s := by
        intro i hi
        by_cases hii : i = id
        · subst hii
          exact ⟨surf1, hg1⟩
        · obtain ⟨s, hs⟩ := hreg i (List.mem_cons_of_mem _ hi)
          exact ⟨s, by rw [hoth1 i hii]; exact hs⟩
      obtain ⟨st', hok, hoth, hsync⟩ := ih st1 hreg1
      refine ⟨st', ?_, ?_, hsync.trans hy1⟩
      · show (match renderSurfaceContent st id (hooks.getSurfaceContent id) with
          | Except.error e => Except.error e
          | Except.ok (st1, _) => renderSurfacesContent hooks st1 rest) = Except.ok st'
        rw [hcnt, hr]
        exact hok
      · intro i hni
        have hne : i ≠ id := fun he => hni (he ▸ List.mem_cons_self _ _)
        rw [hoth i (fun hh => hni (List.mem_cons_of_mem _ hh)), hoth1 i hne]

/-- C3: for an attached component whose registry and index were built by
    `addSurfacesFromStaticHint_` from a (unique-key) surface config map,
    an attribute batch re-renders exactly the surfaces whose `renderAttrs`
    intersect the changed attribute names — the modified set is the union
    over changed attributes of the render-attribute index entries, and
    surfaces outside it are left untouched — and the synchronization
    callbacks fired are exactly those for changed attributes in the merged
    sync-attribute set whose `sync<Attr>` method exists, each receiving
    the change's new and previous values. -/
theorem spec_C3 (hooks : Hooks) (st0 : ComponentState)
    (configs : List (String × Surface)) (changes : List (String × AttrChange))
    (hnd : (configs.map (fun p => p.1)).Nodup)
    (hdoc : st0.inDocument = true) :
    (∀ sid, sid ∈ getModifiedSurfacesFromChanges (initSurfaces st0 configs) changes ↔
      ∃ cfg, (sid, cfg) ∈ configs ∧
        ∃ attr, attr ∈ cfg.renderAttrs ∧ attr ∈ changes.map (fun p => p.1)) ∧
    ∃ st', handleAttributesChanges hooks (initSurfaces st0 configs) changes =
        .ok (st', fireAttrsChanges hooks st' changes) ∧
      (∀ sid, sid ∉ getModifiedSurfacesFromChanges (initSurfaces st0 configs) changes →
        getSurface st' sid = getSurface (initSurfaces st0 configs) sid) ∧
      (∀ attr n p, (attr, n, p) ∈ fireAttrsChanges hooks st' changes ↔
        ∃ ch, (attr, ch) ∈ changes ∧ ch.newVal = n ∧ ch.prevVal = p ∧
          attr ∈ st0.attrsSyncMerged ∧ hooks.syncDefined attr = true) := by
  obtain ⟨hs, hm, hd, hy⟩ := initSurfaces_spec st0 configs hnd
  have hmod : ∀ sid,
      sid ∈ getModifiedSurfacesFromChanges (initSurfaces st0 configs) changes ↔
      ∃ cfg, (sid, cfg) ∈ configs ∧
        ∃ attr, attr ∈ cfg.renderAttrs ∧ attr ∈ changes.map (fun p => p.1) := by
    intro sid
    rw [mem_getModifiedSurfaces]
    constructor
    · rintro ⟨p, hp, hmem⟩
      obtain ⟨cfg, hc, hb⟩ := (hm p.1 sid).mp hmem
      exact ⟨cfg, hc, p.1, hb, List.mem_map.mpr ⟨p, hp, rfl⟩⟩
    · rintro ⟨cfg, hc, attr, hattr, hch⟩
      obtain ⟨p, hp, rfl⟩ := List.mem_map.mp hch
      exact ⟨p, hp, (hm p.1 sid).mpr ⟨cfg, hc, hattr⟩⟩
  refine ⟨hmod, ?_⟩
  have hregm : ∀ sid ∈ getModifiedSurfacesFromChanges (initSurfaces st0 configs) changes,
      ∃ surf, getSurface (initSurfaces st0 configs) sid = some surf := by
    intro sid hsid
    obtain ⟨cfg, hc, _⟩ := (hmod sid).mp hsid
    refine ⟨cfg, ?_⟩
    unfold getSurface
    rw [hs]
    exact findVal_of_mem_nodup configs sid cfg hc hnd
  obtain ⟨st', hok, hoth, hsync⟩ := renderSurfacesContent_ok hooks _ _ hregm
  have hsync0 : st'.attrsSyncMerged = st0.attrsSyncMerged := hsync.trans hy
  refine ⟨st', ?_, hoth, ?_⟩
  · unfold handleAttributesChanges
    rw [if_pos (hd.trans hdoc), hok]
  · intro attr n p
    unfold fireAttrsChanges
    rw [List.mem_map]
    constructor
    · rintro ⟨q, hq, he⟩
      rw [List.mem_filter] at hq
      obtain ⟨hq1, hq2⟩ := hq
      rw [Bool.and_eq_true] at hq2
      injection he with he1 he2
      injection he2 with he2 he3
      subst he1
      subst he2
      subst he3
      refine ⟨q.2, by simpa using hq1, rfl, rfl, ?_, hq2.2⟩
      have hcontains := hq2.1
      rw [hsync0] at hcontains
      simpa using hcontains
    · rintro ⟨ch, hch, hn, hp, hsy, hdef⟩
      refine ⟨(attr, ch), List.mem_filter.mpr ⟨hch, ?_⟩, by rw [hn, hp]⟩
      rw [Bool.and_eq_true]
      refine ⟨?_, hdef⟩
      rw [hsync0]
      simpa using hsy

theorem spec_C3_witness :
    "a" ∈ getModifiedSurfacesFromChanges (initSurfaces exAttached exC3cfgs) exC3changes ∧
    ∃ st', handleAttributesChanges exHooks (initSurfaces exAttached exC3cfgs) exC3changes =
      .ok (st', fireAttrsChanges exHooks st' exC3changes) := by
  have h := spec_C3 exHooks exAttached exC3cfgs exC3changes (by decide) rfl
  refine ⟨(h.1 "a").mpr ?_, ?_⟩
  · exact ⟨{ cacheState := .undef, element := none, renderAttrs := ["foo"] },
      by decide, "foo", by decide, by decide⟩
  · obtain ⟨st', hok, _, _⟩ := h.2
    exact ⟨st', hok⟩

end Metal
